import Mathlib

/-!
# Graceful termination (`termination.go`)

A shallow embedding of the package `termination`: the three package-level
variables, the two exported functions `EnableGracefulTermination` and
`AllowTermination`, and the goroutine body `doListen`, executed one
statement at a time.  Go's `int` is taken as a 64-bit two's-complement
integer; integer conversions and multiplication wrap around.

The process is a transition system.  A call of an exported function is one
step, as is the delivery of a signal by the operating system; a listener
goroutine advances by one statement per step, so that its statements
interleave with the calls and with the other listeners.  Every step that has
an effect worth recording appends an event to the trace of the process.
-/

namespace Termination

/-! ## Machine integers -/

/-- Reduction of an unbounded integer to a signed 64-bit value (two's complement). -/
def wrapInt64 (x : Int) : Int :=
  (x + 2 ^ 63) % 2 ^ 64 - 2 ^ 63

/-- The range of a Go `int` (64-bit). -/
def isInt64 (x : Int) : Prop := -(2 ^ 63) ≤ x ∧ x < 2 ^ 63

/-- The range of a Go `int8`. -/
def isInt8 (x : Int) : Prop := -128 ≤ x ∧ x ≤ 127

instance (x : Int) : Decidable (isInt64 x) := by unfold isInt64; infer_instance

instance (x : Int) : Decidable (isInt8 x) := by unfold isInt8; infer_instance

/-- The constant `time.Millisecond`, in nanoseconds. -/
def Millisecond : Int := 1000000

/-- The conversion `time.Duration(x)` of an `int` to the `int64` type `Duration`. -/
def Duration (x : Int) : Int := wrapInt64 x

/-- The conversion `int(x)` of an `int8` to `int`. -/
def intOfInt8 (x : Int) : Int := wrapInt64 x

/-- Largest millisecond count whose nanosecond value fits in a `Duration`. -/
def maxTimeoutMilliseconds : Int := 9223372036854

/-! ## Signals, channels and goroutines -/

/-- The signals registered by `signal.Notify` in `EnableGracefulTermination`. -/
inductive Signal where
  | SIGTERM
  | SIGINT
  | SIGQUIT
  deriving DecidableEq, Repr

/-- Program counter of a goroutine running `doListen`: the statement it executes next. -/
inductive Pc where
  /-- Blocked on the receive from the channel (line 55). -/
  | atRecv
  /-- About to execute the assignment of the flag (line 58). -/
  | atSetFlag
  /-- About to execute `time.Sleep` (line 62). -/
  | atSleep
  /-- About to execute `os.Exit` (line 63). -/
  | atExit
  /-- Past `os.Exit`. -/
  | done
  deriving DecidableEq, Repr

/-- A goroutine started by `go doListen(signalChannel)` together with its channel,
which was made with capacity 1. -/
structure Listener where
  channel : List Signal
  pc : Pc
  deriving DecidableEq, Repr

/-- The package-level variables and the goroutines started so far. -/
structure State where
  terminatingFlag : Bool
  terminatingTimeoutMilliseconds : Int
  exitCodeOnTimeout : Int
  listeners : List Listener
  deriving DecidableEq, Repr

/-- The state at program start: the initialisers of lines 11, 15 and 18, no goroutine. -/
def State.init : State :=
  { terminatingFlag := false
    terminatingTimeoutMilliseconds := 0
    exitCodeOnTimeout := 0
    listeners := [] }

/-- How a call or a statement ends. -/
inductive Result where
  /-- Normal return, in the given state. -/
  | ok (s : State)
  /-- The call panicked with the given value; the state is the one at the panic. -/
  | panic (v : Int) (s : State)
  /-- The call invoked `os.Exit` with the given code and did not return. -/
  | exit (code : Int) (s : State)
  deriving DecidableEq, Repr

/-! ## The functions of the package -/

/-- The function `EnableGracefulTermination` (lines 25 to 40). -/
def EnableGracefulTermination (timeoutMilliseconds timeoutExitCode : Int) (s : State) : Result :=
  if s.terminatingTimeoutMilliseconds < 0 then
    Result.panic 1 s
  else
    Result.ok
      { s with
        terminatingTimeoutMilliseconds := timeoutMilliseconds
        exitCodeOnTimeout := timeoutExitCode
        listeners := s.listeners ++ [{ channel := [], pc := Pc.atRecv }] }

/-- The function `AllowTermination` (lines 46 to 50). -/
def AllowTermination (exitCode : Int) (s : State) : Result :=
  if s.terminatingFlag == true then
    Result.exit exitCode s
  else
    Result.ok s

/-- A finite sequence of `AllowTermination` calls, stopping at the first that does not return. -/
def allowAll : List Int → State → Result
  | [], s => Result.ok s
  | c :: cs, s =>
    match AllowTermination c s with
    | Result.ok s' => allowAll cs s'
    | r => r

/-- The argument of `time.Sleep` on line 62, in nanoseconds. -/
def sleepDuration (s : State) : Int :=
  wrapInt64 (Duration s.terminatingTimeoutMilliseconds * Millisecond)

/-- The time `time.Sleep d` suspends for at least: nothing when `d` is zero or negative. -/
def sleepLowerBound (d : Int) : Int :=
  if d ≤ 0 then 0 else d

/-- Non-blocking send of a signal to a channel of capacity 1, as done by the
signal package for a registered channel. -/
def sendSignal (sig : Signal) (l : Listener) : Listener :=
  if l.channel.length < 1 then { l with channel := l.channel ++ [sig] } else l

/-- Delivery of a signal to the process: it is sent to every registered channel. -/
def deliverSignal (sig : Signal) (s : State) : State :=
  { s with listeners := s.listeners.map (sendSignal sig) }

/-- What is recorded about the execution. -/
inductive Event where
  | enabled (t f : Int)
  | aborted (v : Int)
  | signal (sig : Signal)
  | received (i : Nat) (sig : Signal)
  | flagSet (i : Nat)
  | slept (i : Nat) (d : Int)
  | forcedExit (i : Nat) (code : Int)
  | voluntaryExit (code : Int)
  deriving DecidableEq, Repr

/-- One statement of the goroutine number `i` running `doListen` (lines 53 to 64):
`none` when there is no such goroutine, when it is blocked on the empty channel,
or when it is past `os.Exit`. -/
def doListen (i : Nat) (s : State) : Option (Event × Result) :=
  match s.listeners.get? i with
  | none => none
  | some l =>
    match l.pc with
    | Pc.atRecv =>
      match l.channel with
      | [] => none
      | sig :: rest =>
        some (Event.received i sig,
          Result.ok { s with listeners := s.listeners.set i { channel := rest, pc := Pc.atSetFlag } })
    | Pc.atSetFlag =>
      some (Event.flagSet i,
        Result.ok { s with
          terminatingFlag := true
          listeners := s.listeners.set i { l with pc := Pc.atSleep } })
    | Pc.atSleep =>
      some (Event.slept i (sleepDuration s),
        Result.ok { s with listeners := s.listeners.set i { l with pc := Pc.atExit } })
    | Pc.atExit =>
      some (Event.forcedExit i (intOfInt8 s.exitCodeOnTimeout),
        Result.exit (intOfInt8 s.exitCodeOnTimeout)
          { s with listeners := s.listeners.set i { l with pc := Pc.done } })
    | Pc.done => none

/-! ## The process as a transition system -/

/-- Whether the process is alive, has called `os.Exit`, or has died of a panic. -/
inductive Status where
  | running
  | exited (code : Int)
  | panicked (v : Int)
  deriving DecidableEq, Repr

/-- The process: its variables and goroutines, its status, and the events so far
(oldest first). -/
structure Process where
  st : State
  status : Status
  trace : List Event
  deriving DecidableEq, Repr

/-- The process at start. -/
def Process.init : Process :=
  { st := State.init, status := Status.running, trace := [] }

/-- What can happen next: a call of one of the two exported functions by the
application, the delivery of a signal, or one statement of a listener goroutine. -/
inductive Action where
  | callEnable (t f : Int)
  | callAllow (c : Int)
  | deliver (sig : Signal)
  | listener (i : Nat)
  deriving DecidableEq, Repr

/-- Whether an action is a call of an exported function (no signal, no listener statement). -/
def Action.isCall : Action → Bool
  | Action.callEnable _ _ => true
  | Action.callAllow _ => true
  | _ => false

/-- The process after a call or statement that ended as `r`, recording `e`. -/
def Process.after (p : Process) (e : Event) (r : Result) : Process :=
  match r with
  | Result.ok s => { st := s, status := Status.running, trace := p.trace ++ [e] }
  | Result.panic v s => { st := s, status := Status.panicked v, trace := p.trace ++ [e] }
  | Result.exit c s => { st := s, status := Status.exited c, trace := p.trace ++ [e] }

/-- One step of the process.  A process that has exited or panicked does nothing
more; a returning `AllowTermination` is not recorded. -/
def step (a : Action) (p : Process) : Process :=
  match p.status with
  | Status.running =>
    match a with
    | Action.callEnable t f =>
      match EnableGracefulTermination t f p.st with
      | Result.panic v s => p.after (Event.aborted v) (Result.panic v s)
      | r => p.after (Event.enabled t f) r
    | Action.callAllow c =>
      match AllowTermination c p.st with
      | Result.ok s => { p with st := s }
      | r => p.after (Event.voluntaryExit c) r
    | Action.deliver sig =>
      { p with st := deliverSignal sig p.st, trace := p.trace ++ [Event.signal sig] }
    | Action.listener i =>
      match doListen i p.st with
      | none => p
      | some (e, r) => p.after e r
  | _ => p

/-- A run: the actions are taken from left to right. -/
def run : List Action → Process → Process
  | [], p => p
  | a :: as, p => run as (step a p)

/-- In `l`, something satisfying `a` has happened by the time something
satisfying `b` first happens. -/
def Precedes (a b : Event → Bool) (l : List Event) : Prop :=
  ∀ n : Nat, (l.take n).any b = true → (l.take n).any a = true

/-- Whether an event is the delivery of a signal to the process. -/
def Event.isSignal : Event → Bool
  | Event.signal _ => true
  | _ => false

/-- Whether an event is the receipt of a signal by listener `i` (line 55). -/
def Event.isReceived (i : Nat) : Event → Bool
  | Event.received j _ => j == i
  | _ => false

/-- Whether an event is the setting of the flag by listener `i` (line 58). -/
def Event.isFlagSet (i : Nat) : Event → Bool
  | Event.flagSet j => j == i
  | _ => false

/-- Whether an event is the sleep of listener `i` (line 62). -/
def Event.isSlept (i : Nat) : Event → Bool
  | Event.slept j _ => j == i
  | _ => false

/-- Whether an event is the exit requested by listener `i` (line 63). -/
def Event.isForcedExit (i : Nat) : Event → Bool
  | Event.forcedExit j _ => j == i
  | _ => false

/-- Whether an event is an exit requested by `AllowTermination`. -/
def Event.isVoluntaryExit : Event → Bool
  | Event.voluntaryExit _ => true
  | _ => false

/-- Whether an event is the return of an `EnableGracefulTermination` call. -/
def Event.isEnabled : Event → Bool
  | Event.enabled _ _ => true
  | _ => false

/-- What the events so far must contain, given where listener `i` stands: a
delivered signal if its channel holds one, its receipt once it is past the
receive, its setting of the flag once it is past line 58, and its sleep once it
is past line 62. -/
def ListenerOK (tr : List Event) (i : Nat) (l : Listener) : Prop :=
  (l.channel ≠ [] → tr.any Event.isSignal = true) ∧
  (l.pc ≠ Pc.atRecv → tr.any (Event.isReceived i) = true) ∧
  (l.pc = Pc.atSleep ∨ l.pc = Pc.atExit ∨ l.pc = Pc.done →
    tr.any (Event.isFlagSet i) = true) ∧
  (l.pc = Pc.atExit ∨ l.pc = Pc.done → tr.any (Event.isSlept i) = true)

/-- The order of the events of every listener: a signal is delivered before the
listener receives one, it receives before it sets the flag, sets the flag
before it sleeps, and sleeps before it exits. -/
def Ordered (tr : List Event) : Prop :=
  ∀ i : Nat,
    Precedes Event.isSignal (Event.isReceived i) tr ∧
    Precedes (Event.isReceived i) (Event.isFlagSet i) tr ∧
    Precedes (Event.isFlagSet i) (Event.isSlept i) tr ∧
    Precedes (Event.isSlept i) (Event.isForcedExit i) tr

/-- The invariant of the process: where every listener stands, what the flag
records, and the order of the events. -/
structure Inv (p : Process) : Prop where
  listeners : ∀ (i : Nat) (l : Listener), p.st.listeners.get? i = some l →
    ListenerOK p.trace i l
  flag : p.st.terminatingFlag = true →
    ∃ i : Nat, p.trace.any (Event.isReceived i) = true ∧
      p.trace.any (Event.isFlagSet i) = true
  order : Ordered p.trace

/-- The timeout argument of the most recent `EnableGracefulTermination` call that
returned, `0` when there was none. -/
def lastEnabledTimeout (l : List Event) : Int :=
  l.foldl (fun acc e => match e with | Event.enabled t _ => t | _ => acc) 0

/-- The arguments of the most recent `EnableGracefulTermination` call that
returned, if there was one. -/
def lastEnabled (l : List Event) : Option (Int × Int) :=
  l.foldl (fun acc e => match e with | Event.enabled t f => some (t, f) | _ => acc) none

/-- The four statements of `doListen`, as they are recorded. -/
inductive Stage where
  | received
  | flagSet
  | slept
  | forcedExit
  deriving DecidableEq, Repr

/-- The listener and the statement an event records, for the events of listeners. -/
def Event.stage : Event → Option (Nat × Stage)
  | Event.received i _ => some (i, Stage.received)
  | Event.flagSet i => some (i, Stage.flagSet)
  | Event.slept i _ => some (i, Stage.slept)
  | Event.forcedExit i _ => some (i, Stage.forcedExit)
  | _ => none

/-- The statements listener `i` has executed, in the order they were recorded. -/
def listenerStages (i : Nat) (tr : List Event) : List Stage :=
  tr.filterMap (fun e =>
    match e.stage with
    | some (j, st) => if j = i then some st else none
    | none => none)

/-- The statements a listener has executed when it stands at a program counter. -/
def Pc.stages : Pc → List Stage
  | Pc.atRecv => []
  | Pc.atSetFlag => [Stage.received]
  | Pc.atSleep => [Stage.received, Stage.flagSet]
  | Pc.atExit => [Stage.received, Stage.flagSet, Stage.slept]
  | Pc.done => [Stage.received, Stage.flagSet, Stage.slept, Stage.forcedExit]

/-- The statements listener number `i` of a list has executed; none when there
is no such listener. -/
def stagesAt (L : List Listener) (i : Nat) : List Stage :=
  match L.get? i with
  | some l => l.pc.stages
  | none => []

/-- What holds of an event given the events `tr` recorded before it: a sleep
is given the duration computed from the timeout of the most recent returned
enabling call and comes after the setting of the flag by the same listener;
a forced exit is given the fallback code of the most recent returned enabling
call, converted to `int`, and comes after the sleep of the same listener. -/
def Good (tr : List Event) : Event → Prop
  | Event.slept i d =>
    ∃ t f : Int, lastEnabled tr = some (t, f) ∧
      d = wrapInt64 (Duration t * Millisecond) ∧ tr.any (Event.isFlagSet i) = true
  | Event.forcedExit i c =>
    ∃ t f : Int, lastEnabled tr = some (t, f) ∧
      c = intOfInt8 f ∧ tr.any (Event.isSlept i) = true
  | _ => True

/-- Every recorded event is `Good` for the events recorded before it. -/
def AllGood (tr : List Event) : Prop :=
  ∀ (n : Nat) (e : Event), tr.get? n = some e → Good (tr.take n) e

/-- The configuration invariant: the stored timeout and fallback code are the
arguments of the most recent returned enabling call, the statements recorded
for every listener are those its program counter is past, every recorded event
is `Good`, and a recorded forced exit is the exit of the process. -/
structure Configured (p : Process) : Prop where
  stored : lastEnabled p.trace =
      some (p.st.terminatingTimeoutMilliseconds, p.st.exitCodeOnTimeout) ∨
    (lastEnabled p.trace = none ∧ p.st.listeners = [])
  stages : ∀ i : Nat, listenerStages i p.trace = stagesAt p.st.listeners i
  good : AllGood p.trace
  exits : ∀ (i : Nat) (c : Int), Event.forcedExit i c ∈ p.trace → p.status = Status.exited c

/-! ## Particular runs and invariants -/

/-- A run in which the configuration is overwritten while a listener sleeps:
`EnableGracefulTermination(500, 1)`, an interrupt signal, the first three
statements of the listener, `EnableGracefulTermination(50, 9)`, and the exit
statement of the listener. -/
def reconfiguredSchedule : List Action :=
  [Action.callEnable 500 1, Action.deliver Signal.SIGINT,
    Action.listener 0, Action.listener 0, Action.listener 0,
    Action.callEnable 50 9, Action.listener 0]

/-- The process after `EnableGracefulTermination(500, 1)`, the delivery of an
interrupt signal, and the first two statements of the listener. -/
def signalledProcess : Process :=
  run [Action.callEnable 500 1, Action.deliver Signal.SIGINT,
    Action.listener 0, Action.listener 0] Process.init

/-- A run to the forced exit: the call, the delivery of a signal, and the four
statements of the listener goroutine that the call started (it is the one
numbered by the count of listeners before the call). -/
def forcedExitSchedule (t f : Int) (sig : Signal) (p : Process) : List Action :=
  [Action.callEnable t f, Action.deliver sig,
    Action.listener p.st.listeners.length, Action.listener p.st.listeners.length,
    Action.listener p.st.listeners.length, Action.listener p.st.listeners.length]

/-- No panic so far: the status is not a panic and no abort is recorded. -/
def NoPanic (p : Process) : Prop :=
  (∀ v : Int, p.status ≠ Status.panicked v) ∧ (∀ v : Int, Event.aborted v ∉ p.trace)

/-- Nothing has been delivered and nobody has exited: the flag is false, the
process has not exited, and only calls of `EnableGracefulTermination` are
recorded. -/
def Quiet (p : Process) : Prop :=
  p.st.terminatingFlag = false ∧ (∀ c : Int, p.status ≠ Status.exited c) ∧
  ∀ e ∈ p.trace, (∃ t f, e = Event.enabled t f) ∨ (∃ v, e = Event.aborted v)

/-! ## The two exported functions -/

/-- Claim C1: when the terminating flag is false, `AllowTermination c` returns
normally in the very same state (flag, stored timeout, stored fallback code and
goroutines unchanged, no exit requested), the process step of such a call changes
nothing, and so any finite sequence of such calls is a no-op; the initial state
is one with the flag false. -/
theorem allowTermination_noop_of_not_terminating (s : State)
    (h : s.terminatingFlag = false) :
    (∀ c : Int, AllowTermination c s = Result.ok s) ∧
    (∀ cs : List Int, allowAll cs s = Result.ok s) ∧
    (∀ (p : Process) (cs : List Int), p.st = s →
      run (cs.map Action.callAllow) p = p) ∧
    State.init.terminatingFlag = false := by
  have h1 : ∀ c : Int, AllowTermination c s = Result.ok s := by
    intro c
    simp [AllowTermination, h]
  refine ⟨h1, ?_, ?_, rfl⟩
  · intro cs
    induction cs with
    | nil => rfl
    | cons c cs ih => simp [allowAll, h1 c, ih]
  · intro p cs hp
    induction cs with
    | nil => rfl
    | cons c cs ih =>
      have hs : step (Action.callAllow c) p = p := by
        obtain ⟨st, status, trace⟩ := p
        subst hp
        cases status <;> simp [step, h1 c]
      simp only [List.map_cons, run, hs, ih]

/-- In the initial state every `AllowTermination` call is a no-op. -/
theorem allowTermination_noop_of_not_terminating_witness :
    (∀ c : Int, AllowTermination c State.init = Result.ok State.init) ∧
    (∀ cs : List Int, allowAll cs State.init = Result.ok State.init) ∧
    (∀ (p : Process) (cs : List Int), p.st = State.init →
      run (cs.map Action.callAllow) p = p) ∧
    State.init.terminatingFlag = false :=
  allowTermination_noop_of_not_terminating State.init rfl

/-- Claim C2: when the terminating flag is true, `AllowTermination c` does not
return: it exits with the code `c` of the caller, whatever the stored fallback
code is, and a running process taking that step ends exited with code `c`. -/
theorem allowTermination_exits_of_terminating (c : Int) (s : State)
    (h : s.terminatingFlag = true) :
    AllowTermination c s = Result.exit c s ∧
    (∀ p : Process, p.st = s → p.status = Status.running →
      (step (Action.callAllow c) p).status = Status.exited c) := by
  have h1 : AllowTermination c s = Result.exit c s := by
    simp [AllowTermination, h]
  refine ⟨h1, ?_⟩
  intro p hp hr
  simp [step, hr, hp, h1, Process.after]

/-- Scenario: after `EnableGracefulTermination(500, 1)` and a
delivered signal, `AllowTermination(42)` exits with 42 although 1 is stored. -/
theorem allowTermination_exits_of_terminating_witness :
    signalledProcess.st.terminatingFlag = true ∧
    signalledProcess.st.exitCodeOnTimeout = 1 ∧
    signalledProcess.status = Status.running ∧
    AllowTermination 42 signalledProcess.st = Result.exit 42 signalledProcess.st ∧
    (step (Action.callAllow 42) signalledProcess).status = Status.exited 42 :=
  ⟨by decide, by decide, by decide,
    (allowTermination_exits_of_terminating 42 signalledProcess.st (by decide)).1,
    (allowTermination_exits_of_terminating 42 signalledProcess.st (by decide)).2
      signalledProcess rfl (by decide)⟩

/-- Claim C5: from a state whose stored timeout is not negative,
`EnableGracefulTermination t f` returns in a state whose stored timeout is `t`
and whose stored fallback code is `f`, whatever was stored before, with the
terminating flag unchanged; a second call overwrites the first. -/
theorem enable_stores_configuration (t f : Int) (s : State)
    (h : 0 ≤ s.terminatingTimeoutMilliseconds) :
    ∃ s' : State, EnableGracefulTermination t f s = Result.ok s' ∧
      s'.terminatingTimeoutMilliseconds = t ∧
      s'.exitCodeOnTimeout = f ∧
      s'.terminatingFlag = s.terminatingFlag ∧
      (0 ≤ t → ∀ t2 f2 : Int, ∃ s2 : State,
        EnableGracefulTermination t2 f2 s' = Result.ok s2 ∧
        s2.terminatingTimeoutMilliseconds = t2 ∧
        s2.exitCodeOnTimeout = f2 ∧
        s2.terminatingFlag = s.terminatingFlag) := by
  have hn : ¬ s.terminatingTimeoutMilliseconds < 0 := not_lt.mpr h
  refine ⟨{ s with
      terminatingTimeoutMilliseconds := t
      exitCodeOnTimeout := f
      listeners := s.listeners ++ [{ channel := [], pc := Pc.atRecv }] },
    by simp only [EnableGracefulTermination, if_neg hn], rfl, rfl, rfl, ?_⟩
  intro ht t2 f2
  have hn2 : ¬ t < 0 := not_lt.mpr ht
  exact ⟨{ terminatingFlag := s.terminatingFlag
           terminatingTimeoutMilliseconds := t2
           exitCodeOnTimeout := f2
           listeners := (s.listeners ++ [{ channel := [], pc := Pc.atRecv }]) ++
             [{ channel := [], pc := Pc.atRecv }] },
    by simp only [EnableGracefulTermination, if_neg hn2], rfl, rfl, rfl⟩

/-- The first call `EnableGracefulTermination(500, 1)` stores 500 and 1. -/
theorem enable_stores_configuration_witness :
    ∃ s' : State, EnableGracefulTermination 500 1 State.init = Result.ok s' ∧
      s'.terminatingTimeoutMilliseconds = 500 ∧
      s'.exitCodeOnTimeout = 1 ∧
      s'.terminatingFlag = State.init.terminatingFlag ∧
      (0 ≤ (500 : Int) → ∀ t2 f2 : Int, ∃ s2 : State,
        EnableGracefulTermination t2 f2 s' = Result.ok s2 ∧
        s2.terminatingTimeoutMilliseconds = t2 ∧
        s2.exitCodeOnTimeout = f2 ∧
        s2.terminatingFlag = State.init.terminatingFlag) :=
  enable_stores_configuration 500 1 State.init (by decide)

theorem panics_iff_stored_negative (t f : Int) (s : State) :
    (∃ v s', EnableGracefulTermination t f s = Result.panic v s') ↔
      s.terminatingTimeoutMilliseconds < 0 := by
  by_cases hn : s.terminatingTimeoutMilliseconds < 0 <;> simp [EnableGracefulTermination, hn]

/-- Claim C6: `EnableGracefulTermination t f` panics exactly when the timeout
stored before the call is negative, whatever `t` is (a negative `t` is accepted
when the stored value is not negative); when it panics, the state at the panic
is the state before the call: stored timeout, stored fallback code, flag and the
list of listener goroutines are unchanged. -/
theorem enable_panics_iff_stored_negative (t f : Int) (s : State) :
    ((∃ v s', EnableGracefulTermination t f s = Result.panic v s') ↔
      s.terminatingTimeoutMilliseconds < 0) ∧
    (∀ v s', EnableGracefulTermination t f s = Result.panic v s' → v = 1 ∧ s' = s) ∧
    (¬ s.terminatingTimeoutMilliseconds < 0 →
      ∃ s', EnableGracefulTermination t f s = Result.ok s' ∧
        s'.listeners = s.listeners ++ [{ channel := [], pc := Pc.atRecv }]) := by
  by_cases hn : s.terminatingTimeoutMilliseconds < 0
  · simp [EnableGracefulTermination, hn]
  · simp [EnableGracefulTermination, hn]

/-- In a state whose stored timeout is `-1` the call panics, and on the initial state the call with `t = -1` returns. -/
theorem enable_panics_iff_stored_negative_witness :
    (∃ v s', EnableGracefulTermination 500 1
      { State.init with terminatingTimeoutMilliseconds := -1 } = Result.panic v s') ∧
    ∃ s', EnableGracefulTermination (-1) 1 State.init = Result.ok s' ∧
      s'.listeners = State.init.listeners ++ [{ channel := [], pc := Pc.atRecv }] :=
  ⟨(enable_panics_iff_stored_negative 500 1
      { State.init with terminatingTimeoutMilliseconds := -1 }).1.mpr (by decide),
    (enable_panics_iff_stored_negative (-1) 1 State.init).2.2 (by decide)⟩

/-! ## Machine arithmetic -/

theorem intOfInt8_of_isInt8 (x : Int) (h : isInt8 x) : intOfInt8 x = x := by
  unfold isInt8 at h
  unfold intOfInt8 wrapInt64
  omega

/-! ## The listener goroutine -/

theorem doListen_recv (L : List Listener) (sig : Signal) (rest : List Signal) (s : State)
    (h : s.listeners = L ++ [{ channel := sig :: rest, pc := Pc.atRecv }]) :
    doListen L.length s = some (Event.received L.length sig,
      Result.ok { s with listeners := L ++ [{ channel := rest, pc := Pc.atSetFlag }] }) := by
  simp [doListen, h]

theorem doListen_setFlag (L : List Listener) (ch : List Signal) (s : State)
    (h : s.listeners = L ++ [{ channel := ch, pc := Pc.atSetFlag }]) :
    doListen L.length s = some (Event.flagSet L.length,
      Result.ok { s with
        terminatingFlag := true
        listeners := L ++ [{ channel := ch, pc := Pc.atSleep }] }) := by
  simp [doListen, h]

theorem doListen_sleep (L : List Listener) (ch : List Signal) (s : State)
    (h : s.listeners = L ++ [{ channel := ch, pc := Pc.atSleep }]) :
    doListen L.length s = some (Event.slept L.length (sleepDuration s),
      Result.ok { s with listeners := L ++ [{ channel := ch, pc := Pc.atExit }] }) := by
  simp [doListen, h]

theorem doListen_exit (L : List Listener) (ch : List Signal) (s : State)
    (h : s.listeners = L ++ [{ channel := ch, pc := Pc.atExit }]) :
    doListen L.length s = some (Event.forcedExit L.length (intOfInt8 s.exitCodeOnTimeout),
      Result.exit (intOfInt8 s.exitCodeOnTimeout)
        { s with listeners := L ++ [{ channel := ch, pc := Pc.done }] }) := by
  simp [doListen, h]

/-- The run `forcedExitSchedule`, step by step. -/
theorem forcedExitSchedule_run (t f : Int) (sig : Signal) (p : Process)
    (hrun : p.status = Status.running)
    (hstored : 0 ≤ p.st.terminatingTimeoutMilliseconds)
    (hf : isInt8 f) :
    (run (forcedExitSchedule t f sig p) p).status = Status.exited f ∧
    (run (forcedExitSchedule t f sig p) p).trace = p.trace ++
      [Event.enabled t f, Event.signal sig,
        Event.received p.st.listeners.length sig,
        Event.flagSet p.st.listeners.length,
        Event.slept p.st.listeners.length (wrapInt64 (Duration t * Millisecond)),
        Event.forcedExit p.st.listeners.length f] ∧
    (run ((forcedExitSchedule t f sig p).take 4) p).st.terminatingFlag = true ∧
    (run ((forcedExitSchedule t f sig p).take 4) p).status = Status.running := by
  obtain ⟨⟨flag, stored, code, L⟩, status, trace⟩ := p
  simp only at hrun hstored
  subst hrun
  have hn : ¬ stored < 0 := not_lt.mpr hstored
  have hlen : (List.map (sendSignal sig) L).length = L.length := by simp
  have e1 := doListen_recv (List.map (sendSignal sig) L) sig []
    { terminatingFlag := flag, terminatingTimeoutMilliseconds := t, exitCodeOnTimeout := f,
      listeners := List.map (sendSignal sig) L ++ [{ channel := [sig], pc := Pc.atRecv }] } rfl
  have e2 := doListen_setFlag (List.map (sendSignal sig) L) []
    { terminatingFlag := flag, terminatingTimeoutMilliseconds := t, exitCodeOnTimeout := f,
      listeners := List.map (sendSignal sig) L ++ [{ channel := [], pc := Pc.atSetFlag }] } rfl
  have e3 := doListen_sleep (List.map (sendSignal sig) L) []
    { terminatingFlag := true, terminatingTimeoutMilliseconds := t, exitCodeOnTimeout := f,
      listeners := List.map (sendSignal sig) L ++ [{ channel := [], pc := Pc.atSleep }] } rfl
  have e4 := doListen_exit (List.map (sendSignal sig) L) []
    { terminatingFlag := true, terminatingTimeoutMilliseconds := t, exitCodeOnTimeout := f,
      listeners := List.map (sendSignal sig) L ++ [{ channel := [], pc := Pc.atExit }] } rfl
  rw [hlen] at e1 e2 e3 e4
  simp only at e1 e2 e3 e4
  simp [forcedExitSchedule, run, step, EnableGracefulTermination, hn, Process.after,
    deliverSignal, sendSignal, e1, e2, e3, e4, intOfInt8_of_isInt8 f hf, sleepDuration]

/-! ## The grace period -/

/-- Counterexample to claim C4 as stated: the timeout `9223372036855` is a non-negative
64-bit `int`, `EnableGracefulTermination` stores it, and the duration computed
on line 62 wraps around to a negative number of nanoseconds, for which
`time.Sleep` does not suspend at all; the listener started by the call, run to
its exit after a signal, sleeps with that negative duration. -/
theorem sleepDuration_wraps_around :
    (0 : Int) ≤ 9223372036855 ∧ isInt64 9223372036855 ∧
    EnableGracefulTermination 9223372036855 1 State.init =
      Result.ok { terminatingFlag := false, terminatingTimeoutMilliseconds := 9223372036855,
                  exitCodeOnTimeout := 1, listeners := [{ channel := [], pc := Pc.atRecv }] } ∧
    sleepDuration { terminatingFlag := false, terminatingTimeoutMilliseconds := 9223372036855,
                    exitCodeOnTimeout := 1, listeners := [{ channel := [], pc := Pc.atRecv }] } =
      -9223372036854551616 ∧
    sleepDuration { terminatingFlag := false, terminatingTimeoutMilliseconds := 9223372036855,
                    exitCodeOnTimeout := 1, listeners := [{ channel := [], pc := Pc.atRecv }] } ≠
      9223372036855 * 1000000 ∧
    sleepLowerBound (sleepDuration
      { terminatingFlag := false, terminatingTimeoutMilliseconds := 9223372036855,
        exitCodeOnTimeout := 1, listeners := [{ channel := [], pc := Pc.atRecv }] }) = 0 ∧
    (run (forcedExitSchedule 9223372036855 1 Signal.SIGINT Process.init) Process.init).trace =
      [Event.enabled 9223372036855 1, Event.signal Signal.SIGINT,
        Event.received 0 Signal.SIGINT, Event.flagSet 0,
        Event.slept 0 (-9223372036854551616), Event.forcedExit 0 1] := by
  decide

/-! ## Runs -/

theorem run_append (as bs : List Action) (p : Process) :
    run (as ++ bs) p = run bs (run as p) := by
  induction as generalizing p with
  | nil => rfl
  | cons a as ih => exact ih (step a p)

/-! ## The steps, case by case -/

theorem step_of_exited (a : Action) (p : Process) (c : Int)
    (h : p.status = Status.exited c) : step a p = p := by
  simp [step, h]

theorem step_of_panicked (a : Action) (p : Process) (v : Int)
    (h : p.status = Status.panicked v) : step a p = p := by
  simp [step, h]

theorem step_callEnable_neg (t f : Int) (p : Process)
    (h : p.status = Status.running) (hn : p.st.terminatingTimeoutMilliseconds < 0) :
    step (Action.callEnable t f) p =
      { st := p.st, status := Status.panicked 1, trace := p.trace ++ [Event.aborted 1] } := by
  simp [step, h, EnableGracefulTermination, hn, Process.after]

theorem step_callEnable_nonneg (t f : Int) (p : Process)
    (h : p.status = Status.running) (hn : ¬ p.st.terminatingTimeoutMilliseconds < 0) :
    step (Action.callEnable t f) p =
      { st := { p.st with
                terminatingTimeoutMilliseconds := t
                exitCodeOnTimeout := f
                listeners := p.st.listeners ++ [{ channel := [], pc := Pc.atRecv }] },
        status := Status.running, trace := p.trace ++ [Event.enabled t f] } := by
  simp [step, h, EnableGracefulTermination, hn, Process.after]

theorem step_callAllow_false (c : Int) (p : Process)
    (hf : p.st.terminatingFlag = false) : step (Action.callAllow c) p = p := by
  obtain ⟨st, status, trace⟩ := p
  simp only at hf
  cases status <;> simp [step, AllowTermination, hf]

theorem step_callAllow_true (c : Int) (p : Process)
    (h : p.status = Status.running) (hf : p.st.terminatingFlag = true) :
    step (Action.callAllow c) p =
      { st := p.st, status := Status.exited c, trace := p.trace ++ [Event.voluntaryExit c] } := by
  simp [step, h, AllowTermination, hf, Process.after]

theorem step_deliver (sig : Signal) (p : Process) (h : p.status = Status.running) :
    step (Action.deliver sig) p =
      { st := deliverSignal sig p.st, status := Status.running,
        trace := p.trace ++ [Event.signal sig] } := by
  obtain ⟨st, status, trace⟩ := p
  simp only at h
  subst h
  simp [step]

theorem step_listener_none (i : Nat) (p : Process) (hd : doListen i p.st = none) :
    step (Action.listener i) p = p := by
  obtain ⟨st, status, trace⟩ := p
  simp only at hd
  cases status <;> simp [step, hd]

theorem step_listener_some (i : Nat) (p : Process) (e : Event) (r : Result)
    (h : p.status = Status.running) (hd : doListen i p.st = some (e, r)) :
    step (Action.listener i) p = p.after e r := by
  simp [step, h, hd]

/-- The statement of a listener, by its program counter. -/
theorem doListen_cases (i : Nat) (s : State) :
    doListen i s = none ∨
    (∃ sig rest, s.listeners.get? i = some { channel := sig :: rest, pc := Pc.atRecv } ∧
      doListen i s = some (Event.received i sig,
        Result.ok { s with
          listeners := s.listeners.set i { channel := rest, pc := Pc.atSetFlag } })) ∨
    (∃ ch, s.listeners.get? i = some { channel := ch, pc := Pc.atSetFlag } ∧
      doListen i s = some (Event.flagSet i,
        Result.ok { s with
          terminatingFlag := true
          listeners := s.listeners.set i { channel := ch, pc := Pc.atSleep } })) ∨
    (∃ ch, s.listeners.get? i = some { channel := ch, pc := Pc.atSleep } ∧
      doListen i s = some (Event.slept i (sleepDuration s),
        Result.ok { s with
          listeners := s.listeners.set i { channel := ch, pc := Pc.atExit } })) ∨
    (∃ ch, s.listeners.get? i = some { channel := ch, pc := Pc.atExit } ∧
      doListen i s = some (Event.forcedExit i (intOfInt8 s.exitCodeOnTimeout),
        Result.exit (intOfInt8 s.exitCodeOnTimeout)
          { s with listeners := s.listeners.set i { channel := ch, pc := Pc.done } })) := by
  unfold doListen
  cases hl : s.listeners.get? i with
  | none => simp
  | some l =>
    obtain ⟨ch, pc⟩ := l
    cases pc <;> cases ch <;> simp
    exact ⟨_, _, ⟨rfl, rfl⟩, rfl, rfl⟩

theorem step_flag_of_flag (a : Action) (p : Process)
    (h : p.st.terminatingFlag = true) : (step a p).st.terminatingFlag = true := by
  cases hst : p.status with
  | exited c => rw [step_of_exited a p c hst]; exact h
  | panicked v => rw [step_of_panicked a p v hst]; exact h
  | running =>
    cases a with
    | callEnable t f =>
      by_cases hn : p.st.terminatingTimeoutMilliseconds < 0
      · rw [step_callEnable_neg t f p hst hn]; exact h
      · rw [step_callEnable_nonneg t f p hst hn]; exact h
    | callAllow c => rw [step_callAllow_true c p hst h]; exact h
    | deliver sig => rw [step_deliver sig p hst]; exact h
    | listener i =>
      rcases doListen_cases i p.st with hd | ⟨sig, rest, _, hd⟩ | ⟨ch, _, hd⟩ | ⟨ch, _, hd⟩ |
        ⟨ch, _, hd⟩
      · rw [step_listener_none i p hd]; exact h
      all_goals
        rw [step_listener_some i p _ _ hst hd]
        simp [Process.after, h]

theorem run_invariant (Q : Action → Prop) (P : Process → Prop)
    (hstep : ∀ a p, Q a → P p → P (step a p)) :
    ∀ (as : List Action) (p : Process), (∀ a ∈ as, Q a) → P p → P (run as p) := by
  intro as
  induction as with
  | nil => intro p _ hp; exact hp
  | cons a as ih =>
    intro p hq hp
    exact ih (step a p) (fun b hb => hq b (List.mem_cons_of_mem a hb))
      (hstep a p (hq a (List.mem_cons_self a as)) hp)

/-! ## The stored timeout -/

theorem lastEnabledTimeout_snoc (tr : List Event) (e : Event) :
    lastEnabledTimeout (tr ++ [e]) =
      match e with
      | Event.enabled t _ => t
      | _ => lastEnabledTimeout tr := by
  simp [lastEnabledTimeout, List.foldl_append]

theorem foldl_of_not_enabled (tr : List Event) (acc : Int)
    (h : tr.any Event.isEnabled = false) :
    tr.foldl (fun acc e => match e with | Event.enabled t _ => t | _ => acc) acc = acc := by
  induction tr generalizing acc with
  | nil => rfl
  | cons e es ih =>
    simp only [List.any_cons, Bool.or_eq_false_iff] at h
    cases e <;> simp_all [Event.isEnabled]

theorem step_timeout_tracks (a : Action) (p : Process)
    (h : p.st.terminatingTimeoutMilliseconds = lastEnabledTimeout p.trace) :
    (step a p).st.terminatingTimeoutMilliseconds = lastEnabledTimeout (step a p).trace := by
  cases hst : p.status with
  | exited c => rw [step_of_exited a p c hst]; exact h
  | panicked v => rw [step_of_panicked a p v hst]; exact h
  | running =>
    cases a with
    | callEnable t f =>
      by_cases hn : p.st.terminatingTimeoutMilliseconds < 0
      · rw [step_callEnable_neg t f p hst hn]; simpa [lastEnabledTimeout_snoc] using h
      · rw [step_callEnable_nonneg t f p hst hn]; simp [lastEnabledTimeout_snoc]
    | callAllow c =>
      cases hf : p.st.terminatingFlag with
      | false => rw [step_callAllow_false c p hf]; exact h
      | true => rw [step_callAllow_true c p hst hf]; simpa [lastEnabledTimeout_snoc] using h
    | deliver sig =>
      rw [step_deliver sig p hst]; simpa [lastEnabledTimeout_snoc, deliverSignal] using h
    | listener i =>
      rcases doListen_cases i p.st with hd | ⟨sig, rest, _, hd⟩ | ⟨ch, _, hd⟩ | ⟨ch, _, hd⟩ |
        ⟨ch, _, hd⟩
      · rw [step_listener_none i p hd]; exact h
      all_goals
        rw [step_listener_some i p _ _ hst hd]
        simpa [Process.after, lastEnabledTimeout_snoc] using h

theorem run_timeout_tracks (as : List Action) :
    (run as Process.init).st.terminatingTimeoutMilliseconds =
      lastEnabledTimeout (run as Process.init).trace :=
  run_invariant (fun _ => True)
    (fun p => p.st.terminatingTimeoutMilliseconds = lastEnabledTimeout p.trace)
    (fun a p _ h => step_timeout_tracks a p h) as Process.init (fun _ _ => trivial) rfl

theorem step_timeout_nonneg (a : Action) (p : Process)
    (ha : ∀ t f : Int, a = Action.callEnable t f → 0 ≤ t)
    (h : 0 ≤ p.st.terminatingTimeoutMilliseconds) :
    0 ≤ (step a p).st.terminatingTimeoutMilliseconds := by
  cases hst : p.status with
  | exited c => rw [step_of_exited a p c hst]; exact h
  | panicked v => rw [step_of_panicked a p v hst]; exact h
  | running =>
    cases a with
    | callEnable t f =>
      rw [step_callEnable_nonneg t f p hst (not_lt.mpr h)]
      exact ha t f rfl
    | callAllow c =>
      cases hf : p.st.terminatingFlag with
      | false => rw [step_callAllow_false c p hf]; exact h
      | true => rw [step_callAllow_true c p hst hf]; exact h
    | deliver sig => rw [step_deliver sig p hst]; exact h
    | listener i =>
      rcases doListen_cases i p.st with hd | ⟨sig, rest, _, hd⟩ | ⟨ch, _, hd⟩ | ⟨ch, _, hd⟩ |
        ⟨ch, _, hd⟩
      · rw [step_listener_none i p hd]; exact h
      all_goals
        rw [step_listener_some i p _ _ hst hd]
        simpa [Process.after] using h

theorem step_noPanic (a : Action) (p : Process)
    (h : 0 ≤ p.st.terminatingTimeoutMilliseconds) (hp : NoPanic p) :
    NoPanic (step a p) := by
  cases hst : p.status with
  | exited c => rw [step_of_exited a p c hst]; exact hp
  | panicked v => rw [step_of_panicked a p v hst]; exact hp
  | running =>
    obtain ⟨_, h2⟩ := hp
    cases a with
    | callEnable t f =>
      rw [step_callEnable_nonneg t f p hst (not_lt.mpr h)]
      exact ⟨by simp, by simpa using h2⟩
    | callAllow c =>
      cases hf : p.st.terminatingFlag with
      | false => rw [step_callAllow_false c p hf]; exact ⟨by simp [hst], h2⟩
      | true => rw [step_callAllow_true c p hst hf]; exact ⟨by simp, by simpa using h2⟩
    | deliver sig => rw [step_deliver sig p hst]; exact ⟨by simp, by simpa using h2⟩
    | listener i =>
      rcases doListen_cases i p.st with hd | ⟨sig, rest, _, hd⟩ | ⟨ch, _, hd⟩ | ⟨ch, _, hd⟩ |
        ⟨ch, _, hd⟩
      · rw [step_listener_none i p hd]; exact ⟨by simp [hst], h2⟩
      all_goals
        rw [step_listener_some i p _ _ hst hd]
        exact ⟨by simp [Process.after], by simpa [Process.after] using h2⟩

/-- Claim C7: the terminating flag is false in the initial state, and every
step of the process (a call of `EnableGracefulTermination` or of
`AllowTermination`, the delivery of a signal, a statement of a listener) keeps
a true flag true, and so does every run; a reachable state with the flag true
is never followed by one with the flag false. -/
theorem terminatingFlag_monotone :
    Process.init.st.terminatingFlag = false ∧
    (∀ (a : Action) (p : Process), p.st.terminatingFlag = true →
      (step a p).st.terminatingFlag = true) ∧
    (∀ (as : List Action) (p : Process), p.st.terminatingFlag = true →
      (run as p).st.terminatingFlag = true) ∧
    (∀ as bs : List Action, (run as Process.init).st.terminatingFlag = true →
      (run (as ++ bs) Process.init).st.terminatingFlag = true) := by
  have hrun : ∀ (as : List Action) (p : Process), p.st.terminatingFlag = true →
      (run as p).st.terminatingFlag = true := by
    intro as
    induction as with
    | nil => intro p h; exact h
    | cons a as ih => intro p h; exact ih _ (step_flag_of_flag a p h)
  refine ⟨rfl, step_flag_of_flag, hrun, ?_⟩
  intro as bs h
  rw [run_append]
  exact hrun bs _ h

/-- The flag of the process that has received a signal stays true through a
further call of each exported function. -/
theorem terminatingFlag_monotone_witness :
    signalledProcess.st.terminatingFlag = true ∧
    (run [Action.callEnable 0 0, Action.callAllow 3] signalledProcess).st.terminatingFlag =
      true :=
  ⟨by decide, terminatingFlag_monotone.2.2.1 [Action.callEnable 0 0, Action.callAllow 3]
    signalledProcess (by decide)⟩

/-- Counterexample to claim C9 as stated: the state after the single call
`EnableGracefulTermination(-1, 0)` is reachable, its stored timeout is `-1`, and
a further call `EnableGracefulTermination(0, 0)` panics there. -/
theorem guard_fires_after_negative_timeout :
    (run [Action.callEnable (-1) 0] Process.init).status = Status.running ∧
    (run [Action.callEnable (-1) 0] Process.init).st.terminatingTimeoutMilliseconds = -1 ∧
    EnableGracefulTermination 0 0 (run [Action.callEnable (-1) 0] Process.init).st =
      Result.panic 1 (run [Action.callEnable (-1) 0] Process.init).st ∧
    (run [Action.callEnable (-1) 0, Action.callEnable 0 0] Process.init).status =
      Status.panicked 1 := by
  decide

/-- Claim C9, amended: in every reachable state the stored timeout is the
timeout argument of the most recent `EnableGracefulTermination` call that
returned, and `0` when none did; so a call panics exactly when the most recent
returned call was given a negative timeout, and the guard cannot fire as long
as no call has returned (in particular on the first call), whatever the
arguments. -/
theorem guard_fires_iff_last_timeout_negative (as : List Action) :
    (run as Process.init).st.terminatingTimeoutMilliseconds =
      lastEnabledTimeout (run as Process.init).trace ∧
    (∀ t f : Int,
      (∃ v s', EnableGracefulTermination t f (run as Process.init).st = Result.panic v s') ↔
        lastEnabledTimeout (run as Process.init).trace < 0) ∧
    ((run as Process.init).trace.any Event.isEnabled = false →
      ∀ t f : Int, ∃ s',
        EnableGracefulTermination t f (run as Process.init).st = Result.ok s') := by
  have htr := run_timeout_tracks as
  refine ⟨htr, ?_, ?_⟩
  · intro t f
    rw [← htr]
    exact (panics_iff_stored_negative t f _)
  · intro hnone t f
    have h0 : lastEnabledTimeout (run as Process.init).trace = 0 :=
      foldl_of_not_enabled _ 0 hnone
    rw [← htr] at h0
    simp [EnableGracefulTermination, h0]

/-- Before any call the guard does not fire, whatever the arguments. -/
theorem guard_fires_iff_last_timeout_negative_witness :
    ∀ t f : Int, ∃ s',
      EnableGracefulTermination t f (run [] Process.init).st = Result.ok s' :=
  (guard_fires_iff_last_timeout_negative []).2.2 (by decide)

/-- Claim C10: the stored timeout is `0` initially, and a step that is not an
`EnableGracefulTermination` call with a negative timeout argument keeps a
non-negative stored timeout non-negative; so in every run whose
`EnableGracefulTermination` calls all have `t ≥ 0`, the stored timeout is not
negative, no call has panicked, and a further call returns, whatever the number
of calls. -/
theorem timeout_nonneg_invariant (as : List Action)
    (h : ∀ t f : Int, Action.callEnable t f ∈ as → 0 ≤ t) :
    Process.init.st.terminatingTimeoutMilliseconds = 0 ∧
    (∀ (a : Action) (p : Process), (∀ t f : Int, a = Action.callEnable t f → 0 ≤ t) →
      0 ≤ p.st.terminatingTimeoutMilliseconds →
      0 ≤ (step a p).st.terminatingTimeoutMilliseconds) ∧
    0 ≤ (run as Process.init).st.terminatingTimeoutMilliseconds ∧
    (∀ v : Int, (run as Process.init).status ≠ Status.panicked v) ∧
    (∀ v : Int, Event.aborted v ∉ (run as Process.init).trace) ∧
    (∀ t f : Int, ∃ s',
      EnableGracefulTermination t f (run as Process.init).st = Result.ok s') := by
  have hinv := run_invariant (fun a => ∀ t f : Int, a = Action.callEnable t f → 0 ≤ t)
    (fun p => 0 ≤ p.st.terminatingTimeoutMilliseconds ∧ NoPanic p)
    (fun a p ha hp => ⟨step_timeout_nonneg a p ha hp.1, step_noPanic a p hp.1 hp.2⟩)
    as Process.init (fun a ha t f hat => h t f (hat ▸ ha))
    ⟨le_refl _, by simp [Process.init], by simp [Process.init]⟩
  refine ⟨rfl, step_timeout_nonneg, hinv.1, hinv.2.1, hinv.2.2, ?_⟩
  intro t f
  simp [EnableGracefulTermination, not_lt.mpr hinv.1]

/-- A run with two calls of non-negative timeout keeps the stored timeout
non-negative and does not panic. -/
theorem timeout_nonneg_invariant_witness :
    0 ≤ (run [Action.callEnable 500 1, Action.deliver Signal.SIGINT, Action.callEnable 0 2,
      Action.callAllow 3, Action.listener 0]
      Process.init).st.terminatingTimeoutMilliseconds ∧
    ∀ v : Int, (run [Action.callEnable 500 1, Action.deliver Signal.SIGINT,
      Action.callEnable 0 2, Action.callAllow 3, Action.listener 0]
      Process.init).status ≠ Status.panicked v :=
  ⟨(timeout_nonneg_invariant [Action.callEnable 500 1, Action.deliver Signal.SIGINT,
      Action.callEnable 0 2, Action.callAllow 3, Action.listener 0]
      (by intro t f ht; simp at ht; omega)).2.2.1,
    (timeout_nonneg_invariant [Action.callEnable 500 1, Action.deliver Signal.SIGINT,
      Action.callEnable 0 2, Action.callAllow 3, Action.listener 0]
      (by intro t f ht; simp at ht; omega)).2.2.2.1⟩

/-! ## Signals come first -/

theorem precedes_snoc {a b : Event → Bool} {l : List Event} {e : Event}
    (h : Precedes a b l) (he : b e = true → l.any a = true) : Precedes a b (l ++ [e]) := by
  intro n hn
  by_cases hle : n ≤ l.length
  · rw [List.take_append_of_le_length hle] at hn ⊢
    exact h n hn
  · have hlen : (l ++ [e]).length ≤ n := by
      simp only [List.length_append, List.length_singleton]
      omega
    rw [List.take_of_length_le hlen] at hn ⊢
    have hl : l.any a = true := by
      rw [List.any_append] at hn
      rcases Bool.or_eq_true _ _ |>.mp hn with h1 | h1
      · have := h l.length (by rw [List.take_length]; exact h1)
        rwa [List.take_length] at this
      · exact he (by simpa using h1)
    rw [List.any_append, hl]
    rfl

theorem precedes_nil (a b : Event → Bool) : Precedes a b [] := by
  intro n hn
  simp at hn

theorem any_snoc_of_any {a : Event → Bool} {l : List Event} (e : Event)
    (h : l.any a = true) : (l ++ [e]).any a = true := by
  rw [List.any_append, h]
  rfl

theorem any_snoc_self {a : Event → Bool} (l : List Event) {e : Event}
    (h : a e = true) : (l ++ [e]).any a = true := by
  simp [List.any_append, h]

theorem get?_set_cases (L : List Listener) (i j : Nat) (x l : Listener)
    (h : (L.set i x).get? j = some l) : (j = i ∧ l = x) ∨ L.get? j = some l := by
  simp only [List.get?_eq_getElem?, List.getElem?_set] at h
  by_cases hij : i = j
  · left
    rw [if_pos hij] at h
    split at h
    · exact ⟨hij.symm, (Option.some.inj h).symm⟩
    · exact absurd h (by simp)
  · right
    rw [if_neg hij] at h
    simpa using h

theorem get?_map_cases (L : List Listener) (f : Listener → Listener) (j : Nat) (l : Listener)
    (h : (L.map f).get? j = some l) : ∃ l0, L.get? j = some l0 ∧ l = f l0 := by
  simp only [List.get?_eq_getElem?, List.getElem?_map, Option.map_eq_some'] at h
  obtain ⟨l0, h0, h1⟩ := h
  exact ⟨l0, by simpa using h0, h1.symm⟩

theorem get?_append_singleton_cases (L : List Listener) (x : Listener) (j : Nat) (l : Listener)
    (h : (L ++ [x]).get? j = some l) : L.get? j = some l ∨ l = x := by
  by_cases hj : j < L.length
  · left
    simpa [List.getElem?_append_left hj] using h
  · right
    simp only [List.get?_eq_getElem?] at h
    rw [List.getElem?_append_right (not_lt.mp hj)] at h
    cases hk : j - L.length with
    | zero => simp [hk] at h; exact h.symm
    | succ k => simp [hk] at h

theorem listenerOK_snoc {tr : List Event} {i : Nat} {l : Listener} (e : Event)
    (h : ListenerOK tr i l) : ListenerOK (tr ++ [e]) i l :=
  ⟨fun hc => any_snoc_of_any e (h.1 hc), fun hc => any_snoc_of_any e (h.2.1 hc),
    fun hc => any_snoc_of_any e (h.2.2.1 hc), fun hc => any_snoc_of_any e (h.2.2.2 hc)⟩

theorem ordered_snoc {tr : List Event} {e : Event} (h : Ordered tr)
    (h1 : ∀ i, e.isReceived i = true → tr.any Event.isSignal = true)
    (h2 : ∀ i, e.isFlagSet i = true → tr.any (Event.isReceived i) = true)
    (h3 : ∀ i, e.isSlept i = true → tr.any (Event.isFlagSet i) = true)
    (h4 : ∀ i, e.isForcedExit i = true → tr.any (Event.isSlept i) = true) :
    Ordered (tr ++ [e]) :=
  fun i => ⟨precedes_snoc (h i).1 (h1 i), precedes_snoc (h i).2.1 (h2 i),
    precedes_snoc (h i).2.2.1 (h3 i), precedes_snoc (h i).2.2.2 (h4 i)⟩

theorem flag_snoc {tr : List Event} (e : Event)
    (h : ∃ i : Nat, tr.any (Event.isReceived i) = true ∧ tr.any (Event.isFlagSet i) = true) :
    ∃ i : Nat, (tr ++ [e]).any (Event.isReceived i) = true ∧
      (tr ++ [e]).any (Event.isFlagSet i) = true :=
  let ⟨i, h1, h2⟩ := h
  ⟨i, any_snoc_of_any e h1, any_snoc_of_any e h2⟩

theorem sendSignal_pc (sig : Signal) (l : Listener) : (sendSignal sig l).pc = l.pc := by
  unfold sendSignal
  split <;> rfl

theorem inv_init : Inv Process.init :=
  ⟨fun i l h => by simp [Process.init, State.init] at h,
    fun h => by simp [Process.init, State.init] at h,
    fun _ => ⟨precedes_nil _ _, precedes_nil _ _, precedes_nil _ _, precedes_nil _ _⟩⟩

theorem step_inv (a : Action) (p : Process) (h : Inv p) : Inv (step a p) := by
  cases hst : p.status with
  | exited c => rw [step_of_exited a p c hst]; exact h
  | panicked v => rw [step_of_panicked a p v hst]; exact h
  | running =>
    cases a with
    | callEnable t f =>
      by_cases hn : p.st.terminatingTimeoutMilliseconds < 0
      · rw [step_callEnable_neg t f p hst hn]
        exact ⟨fun i l hl => listenerOK_snoc _ (h.listeners i l hl), fun hf => flag_snoc _ (h.flag hf),
          ordered_snoc h.order (by simp [Event.isReceived]) (by simp [Event.isFlagSet])
            (by simp [Event.isSlept]) (by simp [Event.isForcedExit])⟩
      · rw [step_callEnable_nonneg t f p hst hn]
        refine ⟨fun i l hl => ?_, fun hf => flag_snoc _ (h.flag hf),
          ordered_snoc h.order (by simp [Event.isReceived]) (by simp [Event.isFlagSet])
            (by simp [Event.isSlept]) (by simp [Event.isForcedExit])⟩
        rcases get?_append_singleton_cases _ _ _ _ hl with h1 | h1
        · exact listenerOK_snoc _ (h.listeners i l h1)
        · subst h1
          simp [ListenerOK]
    | callAllow c =>
      cases hf : p.st.terminatingFlag with
      | false => rw [step_callAllow_false c p hf]; exact h
      | true =>
        rw [step_callAllow_true c p hst hf]
        exact ⟨fun i l hl => listenerOK_snoc _ (h.listeners i l hl), fun hf => flag_snoc _ (h.flag hf),
          ordered_snoc h.order (by simp [Event.isReceived]) (by simp [Event.isFlagSet])
            (by simp [Event.isSlept]) (by simp [Event.isForcedExit])⟩
    | deliver sig =>
      rw [step_deliver sig p hst]
      refine ⟨fun i l hl => ?_, fun hf => flag_snoc _ (h.flag hf),
        ordered_snoc h.order (by simp [Event.isReceived]) (by simp [Event.isFlagSet])
          (by simp [Event.isSlept]) (by simp [Event.isForcedExit])⟩
      obtain ⟨l0, h0, hl0⟩ := get?_map_cases _ _ _ _ hl
      have hold := listenerOK_snoc (Event.signal sig) (h.listeners i l0 h0)
      subst hl0
      refine ⟨fun _ => any_snoc_self _ (by simp [Event.isSignal]), ?_, ?_, ?_⟩
      · rw [sendSignal_pc]; exact hold.2.1
      · rw [sendSignal_pc]; exact hold.2.2.1
      · rw [sendSignal_pc]; exact hold.2.2.2
    | listener i =>
      rcases doListen_cases i p.st with hd | ⟨sig, rest, hl, hd⟩ | ⟨ch, hl, hd⟩ |
        ⟨ch, hl, hd⟩ | ⟨ch, hl, hd⟩
      · rw [step_listener_none i p hd]; exact h
      · rw [step_listener_some i p _ _ hst hd]
        simp only [Process.after]
        have hold := h.listeners i _ hl
        have hsig : p.trace.any Event.isSignal = true := hold.1 (by simp)
        refine ⟨fun j l hj => ?_, fun hf => flag_snoc _ (h.flag hf),
          ordered_snoc h.order (fun _ _ => hsig) (by simp [Event.isFlagSet])
            (by simp [Event.isSlept]) (by simp [Event.isForcedExit])⟩
        rcases get?_set_cases _ _ _ _ _ hj with ⟨hji, hx⟩ | h1
        · subst hji hx
          exact ⟨fun _ => any_snoc_of_any _ hsig, fun _ => any_snoc_self _ (by simp [Event.isReceived]),
            by simp, by simp⟩
        · exact listenerOK_snoc _ (h.listeners j l h1)
      · rw [step_listener_some i p _ _ hst hd]
        simp only [Process.after]
        have hold := h.listeners i _ hl
        have hrecv : p.trace.any (Event.isReceived i) = true := hold.2.1 (by simp)
        refine ⟨fun j l hj => ?_,
          fun _ => ⟨i, any_snoc_of_any _ hrecv, any_snoc_self _ (by simp [Event.isFlagSet])⟩,
          ordered_snoc h.order (by simp [Event.isReceived]) ?_
            (by simp [Event.isSlept]) (by simp [Event.isForcedExit])⟩
        · rcases get?_set_cases _ _ _ _ _ hj with ⟨hji, hx⟩ | h1
          · subst hji hx
            exact ⟨fun hc => any_snoc_of_any _ (hold.1 hc), fun _ => any_snoc_of_any _ hrecv,
              fun _ => any_snoc_self _ (by simp [Event.isFlagSet]), by simp⟩
          · exact listenerOK_snoc _ (h.listeners j l h1)
        · intro k hk
          simp only [Event.isFlagSet, beq_iff_eq] at hk
          subst hk
          exact hrecv
      · rw [step_listener_some i p _ _ hst hd]
        simp only [Process.after]
        have hold := h.listeners i _ hl
        have hrecv : p.trace.any (Event.isReceived i) = true := hold.2.1 (by simp)
        have hflag : p.trace.any (Event.isFlagSet i) = true := hold.2.2.1 (by simp)
        refine ⟨fun j l hj => ?_, fun hf => flag_snoc _ (h.flag hf),
          ordered_snoc h.order (by simp [Event.isReceived]) (by simp [Event.isFlagSet]) ?_
            (by simp [Event.isForcedExit])⟩
        · rcases get?_set_cases _ _ _ _ _ hj with ⟨hji, hx⟩ | h1
          · subst hji hx
            exact ⟨fun hc => any_snoc_of_any _ (hold.1 hc), fun _ => any_snoc_of_any _ hrecv,
              fun _ => any_snoc_of_any _ hflag, fun _ => any_snoc_self _ (by simp [Event.isSlept])⟩
          · exact listenerOK_snoc _ (h.listeners j l h1)
        · intro k hk
          simp only [Event.isSlept, beq_iff_eq] at hk
          subst hk
          exact hflag
      · rw [step_listener_some i p _ _ hst hd]
        simp only [Process.after]
        have hold := h.listeners i _ hl
        have hrecv : p.trace.any (Event.isReceived i) = true := hold.2.1 (by simp)
        have hflag : p.trace.any (Event.isFlagSet i) = true := hold.2.2.1 (by simp)
        have hslept : p.trace.any (Event.isSlept i) = true := hold.2.2.2 (by simp)
        refine ⟨fun j l hj => ?_, fun hf => flag_snoc _ (h.flag hf),
          ordered_snoc h.order (by simp [Event.isReceived]) (by simp [Event.isFlagSet])
            (by simp [Event.isSlept]) ?_⟩
        · rcases get?_set_cases _ _ _ _ _ hj with ⟨hji, hx⟩ | h1
          · subst hji hx
            exact ⟨fun hc => any_snoc_of_any _ (hold.1 hc), fun _ => any_snoc_of_any _ hrecv,
              fun _ => any_snoc_of_any _ hflag, fun _ => any_snoc_of_any _ hslept⟩
          · exact listenerOK_snoc _ (h.listeners j l h1)
        · intro k hk
          simp only [Event.isForcedExit, beq_iff_eq] at hk
          subst hk
          exact hslept

theorem run_inv (as : List Action) : Inv (run as Process.init) :=
  run_invariant (fun _ => True) Inv (fun a p _ h => step_inv a p h) as Process.init
    (fun _ _ => trivial) inv_init

theorem any_snoc_of_not {a : Event → Bool} (l : List Event) {e : Event}
    (h : a e = false) : (l ++ [e]).any a = l.any a := by
  simp [List.any_append, h]

theorem step_flag_recorded (a : Action) (p : Process)
    (h : ∀ i : Nat, p.trace.any (Event.isFlagSet i) = true → p.st.terminatingFlag = true) :
    ∀ i : Nat, (step a p).trace.any (Event.isFlagSet i) = true →
      (step a p).st.terminatingFlag = true := by
  cases hst : p.status with
  | exited c => rw [step_of_exited a p c hst]; exact h
  | panicked v => rw [step_of_panicked a p v hst]; exact h
  | running =>
    cases a with
    | callEnable t f =>
      by_cases hn : p.st.terminatingTimeoutMilliseconds < 0
      · rw [step_callEnable_neg t f p hst hn]
        intro i hi
        rw [any_snoc_of_not _ (by simp [Event.isFlagSet])] at hi
        exact h i hi
      · rw [step_callEnable_nonneg t f p hst hn]
        intro i hi
        rw [any_snoc_of_not _ (by simp [Event.isFlagSet])] at hi
        exact h i hi
    | callAllow c =>
      cases hf : p.st.terminatingFlag with
      | false => rw [step_callAllow_false c p hf]; exact h
      | true => rw [step_callAllow_true c p hst hf]; intro _ _; exact hf
    | deliver sig =>
      rw [step_deliver sig p hst]
      intro i hi
      rw [any_snoc_of_not _ (by simp [Event.isFlagSet])] at hi
      exact h i hi
    | listener i =>
      rcases doListen_cases i p.st with hd | ⟨sig, rest, _, hd⟩ | ⟨ch, _, hd⟩ | ⟨ch, _, hd⟩ |
        ⟨ch, _, hd⟩
      · rw [step_listener_none i p hd]; exact h
      · rw [step_listener_some i p _ _ hst hd]
        intro k hk
        simp only [Process.after] at hk ⊢
        rw [any_snoc_of_not _ (by simp [Event.isFlagSet])] at hk
        exact h k hk
      · rw [step_listener_some i p _ _ hst hd]
        intro k _
        rfl
      · rw [step_listener_some i p _ _ hst hd]
        intro k hk
        simp only [Process.after] at hk ⊢
        rw [any_snoc_of_not _ (by simp [Event.isFlagSet])] at hk
        exact h k hk
      · rw [step_listener_some i p _ _ hst hd]
        intro k hk
        simp only [Process.after] at hk ⊢
        rw [any_snoc_of_not _ (by simp [Event.isFlagSet])] at hk
        exact h k hk

theorem run_flag_recorded (as : List Action) :
    ∀ i : Nat, (run as Process.init).trace.any (Event.isFlagSet i) = true →
      (run as Process.init).st.terminatingFlag = true :=
  run_invariant (fun _ => True)
    (fun p => ∀ i : Nat, p.trace.any (Event.isFlagSet i) = true → p.st.terminatingFlag = true)
    (fun a p _ h => step_flag_recorded a p h) as Process.init (fun _ _ => trivial)
    (fun i h => by simp [Process.init] at h)

theorem precedes_any {a b : Event → Bool} {l : List Event} (h : Precedes a b l)
    (hb : l.any b = true) : l.any a = true := by
  have := h l.length (by rw [List.take_length]; exact hb)
  rwa [List.take_length] at this

theorem step_quiet (a : Action) (p : Process) (ha : a.isCall = true) (h : Quiet p) :
    Quiet (step a p) := by
  obtain ⟨hf, hs, ht⟩ := h
  cases hst : p.status with
  | exited c => exact absurd hst (hs c)
  | panicked v => rw [step_of_panicked a p v hst]; exact ⟨hf, hs, ht⟩
  | running =>
    cases a with
    | callEnable t f =>
      by_cases hn : p.st.terminatingTimeoutMilliseconds < 0
      · rw [step_callEnable_neg t f p hst hn]
        refine ⟨hf, by simp, ?_⟩
        intro e he
        rcases List.mem_append.mp he with h1 | h1
        · exact ht e h1
        · exact Or.inr ⟨1, by simpa using h1⟩
      · rw [step_callEnable_nonneg t f p hst hn]
        refine ⟨hf, by simp, ?_⟩
        intro e he
        rcases List.mem_append.mp he with h1 | h1
        · exact ht e h1
        · exact Or.inl ⟨t, f, by simpa using h1⟩
    | callAllow c => rw [step_callAllow_false c p hf]; exact ⟨hf, hs, ht⟩
    | deliver sig => simp [Action.isCall] at ha
    | listener i => simp [Action.isCall] at ha

theorem step_exited_flag (a : Action) (p : Process) (hinv : Inv p)
    (hrec : ∀ i : Nat, p.trace.any (Event.isFlagSet i) = true → p.st.terminatingFlag = true)
    (h : ∀ c : Int, p.status = Status.exited c → p.st.terminatingFlag = true) :
    ∀ c : Int, (step a p).status = Status.exited c →
      (step a p).st.terminatingFlag = true := by
  cases hst : p.status with
  | exited c => rw [step_of_exited a p c hst]; exact h
  | panicked v => rw [step_of_panicked a p v hst]; exact h
  | running =>
    cases a with
    | callEnable t f =>
      by_cases hn : p.st.terminatingTimeoutMilliseconds < 0
      · rw [step_callEnable_neg t f p hst hn]; intro c hc; simp at hc
      · rw [step_callEnable_nonneg t f p hst hn]; intro c hc; simp at hc
    | callAllow c =>
      cases hf : p.st.terminatingFlag with
      | false => rw [step_callAllow_false c p hf]; intro c hc; simp [hst] at hc
      | true => rw [step_callAllow_true c p hst hf]; intro _ _; exact hf
    | deliver sig => rw [step_deliver sig p hst]; intro c hc; simp at hc
    | listener i =>
      rcases doListen_cases i p.st with hd | ⟨sig, rest, _, hd⟩ | ⟨ch, _, hd⟩ | ⟨ch, _, hd⟩ |
        ⟨ch, hl, hd⟩
      · rw [step_listener_none i p hd]; intro c hc; simp [hst] at hc
      · rw [step_listener_some i p _ _ hst hd]; intro c hc; simp [Process.after] at hc
      · rw [step_listener_some i p _ _ hst hd]; intro c hc; simp [Process.after] at hc
      · rw [step_listener_some i p _ _ hst hd]; intro c hc; simp [Process.after] at hc
      · rw [step_listener_some i p _ _ hst hd]
        intro c _
        exact hrec i ((hinv.listeners i _ hl).2.2.1 (by simp))

theorem run_exited_flag (as : List Action) :
    ∀ c : Int, (run as Process.init).status = Status.exited c →
      (run as Process.init).st.terminatingFlag = true :=
  (run_invariant (fun _ => True)
    (fun p => Inv p ∧
      (∀ i : Nat, p.trace.any (Event.isFlagSet i) = true → p.st.terminatingFlag = true) ∧
      (∀ c : Int, p.status = Status.exited c → p.st.terminatingFlag = true))
    (fun a p _ h => ⟨step_inv a p h.1, step_flag_recorded a p h.2.1,
      step_exited_flag a p h.1 h.2.1 h.2.2⟩)
    as Process.init (fun _ _ => trivial)
    ⟨inv_init, fun i h => by simp [Process.init] at h,
      fun c h => by simp [Process.init] at h⟩).2.2

/-- The order `Precedes` does reject a receipt recorded before any delivery. -/
theorem precedes_rejects_wrong_order :
    ¬ Precedes Event.isSignal (Event.isReceived 0)
      [Event.received 0 Signal.SIGINT, Event.signal Signal.SIGINT] := by
  intro h
  have h1 := h 1
  simp [Event.isSignal, Event.isReceived] at h1

/-- Claim C8: in every reachable state, (1) the flag is true only if a signal
was delivered, some listener received one and set the flag; (2) for every
listener the recorded events are in the order delivery of a signal, receipt,
setting of the flag, sleep, exit; (3) a listener that has requested its exit
has before that received a signal, set the flag and slept, a signal was
delivered, and the flag is true; (4) a process that has exited, by a listener
or by `AllowTermination`, has the flag true, so a signal was delivered; (5) in
a run that consists only of calls of `EnableGracefulTermination` and
`AllowTermination` the flag is false, the process has not exited, and no
receipt, sleep or exit is recorded. -/
theorem no_forced_exit_without_signal (as : List Action) :
    ((run as Process.init).st.terminatingFlag = true →
      (run as Process.init).trace.any Event.isSignal = true ∧
      ∃ i : Nat, (run as Process.init).trace.any (Event.isReceived i) = true ∧
        (run as Process.init).trace.any (Event.isFlagSet i) = true) ∧
    Ordered (run as Process.init).trace ∧
    (∀ i : Nat, (run as Process.init).trace.any (Event.isForcedExit i) = true →
      (run as Process.init).trace.any Event.isSignal = true ∧
      (run as Process.init).trace.any (Event.isReceived i) = true ∧
      (run as Process.init).trace.any (Event.isFlagSet i) = true ∧
      (run as Process.init).trace.any (Event.isSlept i) = true ∧
      (run as Process.init).st.terminatingFlag = true) ∧
    (∀ c : Int, (run as Process.init).status = Status.exited c →
      (run as Process.init).st.terminatingFlag = true ∧
      (run as Process.init).trace.any Event.isSignal = true) ∧
    ((∀ a ∈ as, Action.isCall a = true) →
      (run as Process.init).st.terminatingFlag = false ∧
      (∀ c : Int, (run as Process.init).status ≠ Status.exited c) ∧
      ∀ e ∈ (run as Process.init).trace,
        (∃ t f, e = Event.enabled t f) ∨ (∃ v, e = Event.aborted v)) := by
  have hinv := run_inv as
  have hflag : (run as Process.init).st.terminatingFlag = true →
      (run as Process.init).trace.any Event.isSignal = true ∧
      ∃ i : Nat, (run as Process.init).trace.any (Event.isReceived i) = true ∧
        (run as Process.init).trace.any (Event.isFlagSet i) = true := by
    intro hf
    obtain ⟨i, h1, h2⟩ := hinv.flag hf
    exact ⟨precedes_any (hinv.order i).1 h1, i, h1, h2⟩
  refine ⟨hflag, hinv.order, ?_, ?_, ?_⟩
  · intro i hi
    have h4 := precedes_any (hinv.order i).2.2.2 hi
    have h3 := precedes_any (hinv.order i).2.2.1 h4
    have h2 := precedes_any (hinv.order i).2.1 h3
    have h1 := precedes_any (hinv.order i).1 h2
    exact ⟨h1, h2, h3, h4, run_flag_recorded as i h3⟩
  · intro c hc
    have hf := run_exited_flag as c hc
    exact ⟨hf, (hflag hf).1⟩
  · intro hcalls
    exact run_invariant (fun a => Action.isCall a = true) Quiet step_quiet as Process.init
      hcalls ⟨rfl, by simp [Process.init], by simp [Process.init]⟩

/-- Scenario 1 and the forced exit: a run of calls only keeps the flag false and
exits nowhere, and in the run to the forced exit the listener has received a
signal, set the flag and slept before it exits. -/
theorem no_forced_exit_without_signal_witness :
    ((run [Action.callEnable 500 1, Action.callAllow 7, Action.callAllow 8]
        Process.init).st.terminatingFlag = false ∧
      ∀ c : Int, (run [Action.callEnable 500 1, Action.callAllow 7, Action.callAllow 8]
        Process.init).status ≠ Status.exited c) ∧
    ((run (forcedExitSchedule 500 1 Signal.SIGINT Process.init) Process.init).trace.any
        Event.isSignal = true ∧
      (run (forcedExitSchedule 500 1 Signal.SIGINT Process.init) Process.init).trace.any
        (Event.isSlept 0) = true) :=
  ⟨⟨((no_forced_exit_without_signal
        [Action.callEnable 500 1, Action.callAllow 7, Action.callAllow 8]).2.2.2.2
        (by decide)).1,
    ((no_forced_exit_without_signal
        [Action.callEnable 500 1, Action.callAllow 7, Action.callAllow 8]).2.2.2.2
        (by decide)).2.1⟩,
   ⟨((no_forced_exit_without_signal
        (forcedExitSchedule 500 1 Signal.SIGINT Process.init)).2.2.1 0 (by decide)).1,
    ((no_forced_exit_without_signal
        (forcedExitSchedule 500 1 Signal.SIGINT Process.init)).2.2.1 0 (by decide)).2.2.2.1⟩⟩

/-! ## The configuration read by a listener -/

theorem lastEnabled_snoc (tr : List Event) (e : Event) :
    lastEnabled (tr ++ [e]) =
      match e with
      | Event.enabled t f => some (t, f)
      | _ => lastEnabled tr := by
  simp [lastEnabled, List.foldl_append]

theorem lastEnabled_snoc_of_not (tr : List Event) (e : Event) (h : e.isEnabled = false) :
    lastEnabled (tr ++ [e]) = lastEnabled tr := by
  rw [lastEnabled_snoc]
  cases e <;> simp_all [Event.isEnabled]

theorem listenerStages_snoc (j : Nat) (tr : List Event) (e : Event) :
    listenerStages j (tr ++ [e]) = listenerStages j tr ++
      (match e.stage with
        | some (k, st) => if k = j then [st] else []
        | none => []) := by
  unfold listenerStages
  rw [List.filterMap_append]
  congr 1
  cases hs : e.stage with
  | none => simp [List.filterMap, hs]
  | some ks =>
    obtain ⟨k, st⟩ := ks
    by_cases hk : k = j <;> simp [List.filterMap, hs, hk]

theorem mem_listenerStages (i : Nat) (st : Stage) (e : Event) (tr : List Event)
    (he : e ∈ tr) (hs : e.stage = some (i, st)) : st ∈ listenerStages i tr := by
  unfold listenerStages
  rw [List.mem_filterMap]
  exact ⟨e, he, by simp [hs]⟩

theorem get?_snoc_cases (tr : List Event) (e x : Event) (n : Nat)
    (h : (tr ++ [e]).get? n = some x) :
    (tr.get? n = some x ∧ (tr ++ [e]).take n = tr.take n) ∨
    (x = e ∧ (tr ++ [e]).take n = tr) := by
  simp only [List.get?_eq_getElem?] at h ⊢
  by_cases hn : n < tr.length
  · left
    rw [List.getElem?_append_left hn] at h
    exact ⟨h, List.take_append_of_le_length (le_of_lt hn)⟩
  · right
    rw [List.getElem?_append_right (not_lt.mp hn)] at h
    cases hk : n - tr.length with
    | zero =>
      have hlen : n = tr.length := by omega
      rw [hk] at h
      subst hlen
      exact ⟨by simpa using h.symm, List.take_left tr [e]⟩
    | succ k => rw [hk] at h; simp at h

theorem allGood_snoc {tr : List Event} {e : Event} (h : AllGood tr) (he : Good tr e) :
    AllGood (tr ++ [e]) := by
  intro n x hx
  rcases get?_snoc_cases tr e x n hx with ⟨h1, h2⟩ | ⟨h1, h2⟩
  · rw [h2]; exact h n x h1
  · rw [h1, h2]; exact he

theorem good_of_stage_none (tr : List Event) (e : Event) (h : e.stage = none) :
    Good tr e := by
  cases e <;> simp_all [Good, Event.stage]

theorem stagesAt_append_new (L : List Listener) (i : Nat) :
    stagesAt (L ++ [{ channel := [], pc := Pc.atRecv }]) i = stagesAt L i := by
  unfold stagesAt
  simp only [List.get?_eq_getElem?]
  by_cases hi : i < L.length
  · rw [List.getElem?_append_left hi]
  · rw [List.getElem?_append_right (not_lt.mp hi),
      List.getElem?_eq_none (not_lt.mp hi)]
    cases hk : i - L.length with
    | zero => simp [Pc.stages]
    | succ k => simp

theorem stagesAt_map_sendSignal (sig : Signal) (L : List Listener) (i : Nat) :
    stagesAt (L.map (sendSignal sig)) i = stagesAt L i := by
  unfold stagesAt
  simp only [List.get?_eq_getElem?, List.getElem?_map]
  cases L[i]? with
  | none => rfl
  | some l => simp [sendSignal_pc]

theorem stagesAt_set (L : List Listener) (i j : Nat) (l x : Listener)
    (hl : L.get? i = some l) :
    stagesAt (L.set i x) j = if j = i then x.pc.stages else stagesAt L j := by
  unfold stagesAt
  simp only [List.get?_eq_getElem?] at hl ⊢
  rw [List.getElem?_set]
  by_cases hij : i = j
  · subst hij
    have hlt : i < L.length := by
      by_contra hc
      rw [List.getElem?_eq_none (not_lt.mp hc)] at hl
      exact absurd hl (by simp)
    simp [hlt]
  · have hji : ¬ j = i := fun h => hij h.symm
    simp [hij, hji]

theorem stagesAt_done (L : List Listener) (i : Nat)
    (h : Stage.forcedExit ∈ stagesAt L i) :
    stagesAt L i = [Stage.received, Stage.flagSet, Stage.slept, Stage.forcedExit] := by
  unfold stagesAt at h ⊢
  cases hl : L.get? i with
  | none => rw [hl] at h; simp at h
  | some l =>
    rw [hl] at h
    obtain ⟨ch, pc⟩ := l
    cases pc <;> simp [Pc.stages] at h ⊢

theorem not_enabled_of_stage (e : Event) (k : Nat × Stage) (h : e.stage = some k) :
    e.isEnabled = false := by
  cases e <;> simp_all [Event.stage, Event.isEnabled]

theorem stored_of_listener (p : Process) (h : Configured p) (i : Nat) (l : Listener)
    (hl : p.st.listeners.get? i = some l) :
    lastEnabled p.trace =
      some (p.st.terminatingTimeoutMilliseconds, p.st.exitCodeOnTimeout) := by
  rcases h.stored with h1 | ⟨_, h2⟩
  · exact h1
  · rw [h2] at hl
    simp at hl

theorem configured_of_no_stage (p : Process) (s' : State) (st' : Status) (e : Event)
    (h : Configured p) (hrun : p.status = Status.running) (hstage : e.stage = none)
    (hstored : lastEnabled (p.trace ++ [e]) =
        some (s'.terminatingTimeoutMilliseconds, s'.exitCodeOnTimeout) ∨
      (lastEnabled (p.trace ++ [e]) = none ∧ s'.listeners = []))
    (hL : ∀ i, stagesAt s'.listeners i = stagesAt p.st.listeners i) :
    Configured { st := s', status := st', trace := p.trace ++ [e] } := by
  refine ⟨hstored, ?_, allGood_snoc h.good (good_of_stage_none _ _ hstage), ?_⟩
  · intro i
    show listenerStages i (p.trace ++ [e]) = stagesAt s'.listeners i
    rw [listenerStages_snoc, hstage, hL]
    simpa using h.stages i
  · intro i c hmem
    rcases List.mem_append.mp hmem with h1 | h1
    · have := h.exits i c h1
      rw [hrun] at this
      exact absurd this (by simp)
    · have he : e = Event.forcedExit i c := (List.mem_singleton.mp h1).symm
      rw [he] at hstage
      simp [Event.stage] at hstage

theorem stored_snoc_of_not (p : Process) (s' : State) (e : Event) (h : Configured p)
    (hen : e.isEnabled = false)
    (ht : s'.terminatingTimeoutMilliseconds = p.st.terminatingTimeoutMilliseconds)
    (hc : s'.exitCodeOnTimeout = p.st.exitCodeOnTimeout)
    (hnil : p.st.listeners = [] → s'.listeners = []) :
    lastEnabled (p.trace ++ [e]) =
        some (s'.terminatingTimeoutMilliseconds, s'.exitCodeOnTimeout) ∨
      (lastEnabled (p.trace ++ [e]) = none ∧ s'.listeners = []) := by
  rw [lastEnabled_snoc_of_not _ _ hen, ht, hc]
  rcases h.stored with h1 | ⟨h1, h2⟩
  · exact Or.inl h1
  · exact Or.inr ⟨h1, hnil h2⟩

theorem configured_of_listener (p : Process) (s' : State) (st' : Status) (e : Event)
    (i : Nat) (stg : Stage) (l x : Listener)
    (h : Configured p) (hrun : p.status = Status.running)
    (hl : p.st.listeners.get? i = some l)
    (hstage : e.stage = some (i, stg))
    (hx : x.pc.stages = l.pc.stages ++ [stg])
    (ht : s'.terminatingTimeoutMilliseconds = p.st.terminatingTimeoutMilliseconds)
    (hc : s'.exitCodeOnTimeout = p.st.exitCodeOnTimeout)
    (hL : s'.listeners = p.st.listeners.set i x)
    (hgood : Good p.trace e)
    (hexit : ∀ j c, e = Event.forcedExit j c → st' = Status.exited c) :
    Configured { st := s', status := st', trace := p.trace ++ [e] } := by
  refine ⟨?_, ?_, allGood_snoc h.good hgood, ?_⟩
  · left
    show lastEnabled (p.trace ++ [e]) = _
    rw [lastEnabled_snoc_of_not _ _ (not_enabled_of_stage e _ hstage), ht, hc]
    exact stored_of_listener p h i l hl
  · intro j
    show listenerStages j (p.trace ++ [e]) = stagesAt s'.listeners j
    rw [listenerStages_snoc, hstage, hL, stagesAt_set _ _ _ _ _ hl]
    by_cases hji : j = i
    · subst hji
      have hold := h.stages j
      unfold stagesAt at hold
      rw [hl] at hold
      simp only at hold
      simp only [if_true, hx]
      rw [hold]
    · have hij : ¬ i = j := fun hc => hji hc.symm
      simp only [if_neg hji, if_neg hij, List.append_nil]
      exact h.stages j
  · intro j c hmem
    rcases List.mem_append.mp hmem with h1 | h1
    · have := h.exits j c h1
      rw [hrun] at this
      exact absurd this (by simp)
    · exact hexit j c (List.mem_singleton.mp h1).symm

theorem configured_init : Configured Process.init :=
  ⟨Or.inr ⟨rfl, rfl⟩, fun i => by simp [Process.init, State.init, listenerStages, stagesAt],
    fun n e h => by simp [Process.init] at h, fun i c h => by simp [Process.init] at h⟩

theorem step_configured (a : Action) (p : Process) (hinv : Inv p) (h : Configured p) :
    Configured (step a p) := by
  cases hst : p.status with
  | exited c => rw [step_of_exited a p c hst]; exact h
  | panicked v => rw [step_of_panicked a p v hst]; exact h
  | running =>
    cases a with
    | callEnable t f =>
      by_cases hn : p.st.terminatingTimeoutMilliseconds < 0
      · rw [step_callEnable_neg t f p hst hn]
        exact configured_of_no_stage p p.st _ _ h hst rfl
          (stored_snoc_of_not p p.st _ h rfl rfl rfl id) (fun _ => rfl)
      · rw [step_callEnable_nonneg t f p hst hn]
        exact configured_of_no_stage p _ _ _ h hst rfl
          (Or.inl (by rw [lastEnabled_snoc])) (fun i => stagesAt_append_new _ i)
    | callAllow c =>
      cases hf : p.st.terminatingFlag with
      | false => rw [step_callAllow_false c p hf]; exact h
      | true =>
        rw [step_callAllow_true c p hst hf]
        exact configured_of_no_stage p p.st _ _ h hst rfl
          (stored_snoc_of_not p p.st _ h rfl rfl rfl id) (fun _ => rfl)
    | deliver sig =>
      rw [step_deliver sig p hst]
      exact configured_of_no_stage p _ _ _ h hst rfl
        (stored_snoc_of_not p _ _ h rfl rfl rfl
          (fun hnil => by simp [deliverSignal, hnil]))
        (fun i => stagesAt_map_sendSignal sig _ i)
    | listener i =>
      rcases doListen_cases i p.st with hd | ⟨sig, rest, hl, hd⟩ | ⟨ch, hl, hd⟩ |
        ⟨ch, hl, hd⟩ | ⟨ch, hl, hd⟩
      · rw [step_listener_none i p hd]; exact h
      · rw [step_listener_some i p _ _ hst hd]
        exact configured_of_listener p _ _ _ i Stage.received _
          { channel := rest, pc := Pc.atSetFlag } h hst hl rfl rfl rfl rfl rfl trivial
          (fun j c he => by cases he)
      · rw [step_listener_some i p _ _ hst hd]
        exact configured_of_listener p _ _ _ i Stage.flagSet _
          { channel := ch, pc := Pc.atSleep } h hst hl rfl rfl rfl rfl rfl trivial
          (fun j c he => by cases he)
      · rw [step_listener_some i p _ _ hst hd]
        exact configured_of_listener p _ _ _ i Stage.slept _
          { channel := ch, pc := Pc.atExit } h hst hl rfl rfl rfl rfl rfl
          ⟨_, _, stored_of_listener p h i _ hl, rfl,
            (hinv.listeners i _ hl).2.2.1 (Or.inl rfl)⟩
          (fun j c he => by cases he)
      · rw [step_listener_some i p _ _ hst hd]
        exact configured_of_listener p _ _ _ i Stage.forcedExit _
          { channel := ch, pc := Pc.done } h hst hl rfl rfl rfl rfl rfl
          ⟨_, _, stored_of_listener p h i _ hl, rfl,
            (hinv.listeners i _ hl).2.2.2 (Or.inl rfl)⟩
          (fun j c he => by cases he; rfl)

theorem run_configured (as : List Action) : Configured (run as Process.init) :=
  (run_invariant (fun _ => True) (fun p => Inv p ∧ Configured p)
    (fun a p _ h => ⟨step_inv a p h.1, step_configured a p h.1 h.2⟩)
    as Process.init (fun _ _ => trivial) ⟨inv_init, configured_init⟩).2

theorem wrap_millis_eq_iff (t : Int) (h0 : 0 ≤ t) (h64 : isInt64 t) :
    wrapInt64 (Duration t * Millisecond) = t * 1000000 ↔ t ≤ maxTimeoutMilliseconds := by
  unfold isInt64 at h64
  unfold Duration Millisecond wrapInt64 maxTimeoutMilliseconds
  constructor <;> intro h <;> omega

theorem wrap_millis_lt (t : Int) (hmax : maxTimeoutMilliseconds < t) :
    wrapInt64 (Duration t * Millisecond) < t * 1000000 := by
  unfold Duration Millisecond wrapInt64
  unfold maxTimeoutMilliseconds at hmax
  omega

/-! ## The forced exit -/

/-- Counterexample to claim C3 as stated: `EnableGracefulTermination(500, 1)`
returns, a signal is delivered, the listener receives it, sets the flag and
sleeps; `EnableGracefulTermination(50, 9)` is called meanwhile; no voluntary
exit takes place, and the listener exits with code 9, not 1. -/
theorem forced_exit_code_overwritten :
    (run (reconfiguredSchedule.take 1) Process.init).status = Status.running ∧
    (run (reconfiguredSchedule.take 1) Process.init).st.exitCodeOnTimeout = 1 ∧
    (run reconfiguredSchedule Process.init).trace =
      [Event.enabled 500 1, Event.signal Signal.SIGINT, Event.received 0 Signal.SIGINT,
        Event.flagSet 0, Event.slept 0 500000000, Event.enabled 50 9,
        Event.forcedExit 0 9] ∧
    (run reconfiguredSchedule Process.init).trace.any Event.isVoluntaryExit = false ∧
    (run reconfiguredSchedule Process.init).status = Status.exited 9 ∧
    (run reconfiguredSchedule Process.init).status ≠ Status.exited 1 := by
  decide

/-- Claim C3, amended: in every run from the initial state, a listener that
executes its exit statement has executed exactly the statements receive, set
the flag, sleep, exit, in this order and once each; the code it passes to
`os.Exit` is the fallback code of the most recent `EnableGracefulTermination`
call that returned before the exit statement, converted to `int`, which is that
code itself for an `int8`; and the process has then exited with that code.
So after `EnableGracefulTermination t f` and a delivered signal, with no
voluntary exit and no further returning `EnableGracefulTermination` call
before the exit statement, the code is `f`; the run `forcedExitSchedule`
from a running process with a non-negative stored timeout does reach that
exit. -/
theorem forced_exit_code_of_run (as : List Action) (t f : Int) (sig : Signal)
    (p : Process) :
    (∀ (n i : Nat) (c : Int),
      (run as Process.init).trace.get? n = some (Event.forcedExit i c) →
      ∃ t0 f0 : Int,
        lastEnabled ((run as Process.init).trace.take n) = some (t0, f0) ∧
        c = intOfInt8 f0 ∧ (isInt8 f0 → c = f0) ∧
        listenerStages i (run as Process.init).trace =
          [Stage.received, Stage.flagSet, Stage.slept, Stage.forcedExit] ∧
        (run as Process.init).status = Status.exited c) ∧
    (p.status = Status.running → 0 ≤ p.st.terminatingTimeoutMilliseconds → isInt8 f →
      (run (forcedExitSchedule t f sig p) p).status = Status.exited f ∧
      (run (forcedExitSchedule t f sig p) p).trace = p.trace ++
        [Event.enabled t f, Event.signal sig,
          Event.received p.st.listeners.length sig,
          Event.flagSet p.st.listeners.length,
          Event.slept p.st.listeners.length (wrapInt64 (Duration t * Millisecond)),
          Event.forcedExit p.st.listeners.length f]) := by
  have hcfg := run_configured as
  refine ⟨?_, ?_⟩
  · intro n i c hn
    obtain ⟨t0, f0, h1, h2, _⟩ := hcfg.good n _ hn
    have hmem : Event.forcedExit i c ∈ (run as Process.init).trace := List.get?_mem hn
    have hst : Stage.forcedExit ∈ listenerStages i (run as Process.init).trace :=
      mem_listenerStages i Stage.forcedExit _ _ hmem rfl
    refine ⟨t0, f0, h1, h2, fun hf0 => by rw [h2, intOfInt8_of_isInt8 f0 hf0], ?_,
      hcfg.exits i c hmem⟩
    rw [hcfg.stages i] at hst ⊢
    exact stagesAt_done _ _ hst
  · intro hrun hstored hf
    have h := forcedExitSchedule_run t f sig p hrun hstored hf
    exact ⟨h.1, h.2.1⟩

/-- The scenario `EnableGracefulTermination(500, 1)`, interrupt signal, no
voluntary exit: the listener exits with code 1, the code of the only call; and
in the run with a second call during the sleep, with code 9, the code of the
second call. -/
theorem forced_exit_code_of_run_witness :
    (∃ t0 f0 : Int,
      lastEnabled ((run (forcedExitSchedule 500 1 Signal.SIGINT Process.init)
        Process.init).trace.take 5) = some (t0, f0) ∧
      (1 : Int) = intOfInt8 f0 ∧ (isInt8 f0 → (1 : Int) = f0) ∧
      listenerStages 0 (run (forcedExitSchedule 500 1 Signal.SIGINT Process.init)
        Process.init).trace =
        [Stage.received, Stage.flagSet, Stage.slept, Stage.forcedExit] ∧
      (run (forcedExitSchedule 500 1 Signal.SIGINT Process.init) Process.init).status =
        Status.exited 1) ∧
    (∃ t0 f0 : Int,
      lastEnabled ((run reconfiguredSchedule Process.init).trace.take 6) = some (t0, f0) ∧
      (9 : Int) = intOfInt8 f0 ∧ (isInt8 f0 → (9 : Int) = f0) ∧
      listenerStages 0 (run reconfiguredSchedule Process.init).trace =
        [Stage.received, Stage.flagSet, Stage.slept, Stage.forcedExit] ∧
      (run reconfiguredSchedule Process.init).status = Status.exited 9) ∧
    (run (forcedExitSchedule 500 1 Signal.SIGINT Process.init) Process.init).status =
      Status.exited 1 :=
  ⟨(forced_exit_code_of_run (forcedExitSchedule 500 1 Signal.SIGINT Process.init)
      500 1 Signal.SIGINT Process.init).1 5 0 1 (by decide),
    (forced_exit_code_of_run reconfiguredSchedule 500 1 Signal.SIGINT Process.init).1
      6 0 9 (by decide),
    ((forced_exit_code_of_run [] 500 1 Signal.SIGINT Process.init).2 rfl (by decide)
      (by decide)).1⟩

/-- Claim C4, amended: in every run from the initial state, a listener that
executes its sleep has set the flag before, and the duration it passes to
`time.Sleep` is `time.Duration(t) * time.Millisecond` in wrap-around 64-bit
arithmetic for the timeout `t` of the most recent `EnableGracefulTermination`
call that returned before the sleep; for a 64-bit `t ≥ 0` this is
`t * 1000000` nanoseconds if and only if `t ≤ 9223372036854`, and for every
larger `t` it is less than `t * 1000000`; a listener executes its exit
statement only after its sleep; and for `0 ≤ t ≤ 9223372036854` the listener
started by `EnableGracefulTermination t f` in the initial state, run to its
exit after a signal, sleeps with the duration `t * 1000000`. -/
theorem sleep_duration_of_run (as : List Action) (t f : Int) (sig : Signal) :
    (∀ (n i : Nat) (d : Int),
      (run as Process.init).trace.get? n = some (Event.slept i d) →
      ∃ t0 f0 : Int,
        lastEnabled ((run as Process.init).trace.take n) = some (t0, f0) ∧
        d = wrapInt64 (Duration t0 * Millisecond) ∧
        ((run as Process.init).trace.take n).any (Event.isFlagSet i) = true ∧
        (0 ≤ t0 → isInt64 t0 → (d = t0 * 1000000 ↔ t0 ≤ maxTimeoutMilliseconds)) ∧
        (maxTimeoutMilliseconds < t0 → d < t0 * 1000000)) ∧
    (∀ (n i : Nat) (c : Int),
      (run as Process.init).trace.get? n = some (Event.forcedExit i c) →
      ((run as Process.init).trace.take n).any (Event.isSlept i) = true) ∧
    (0 ≤ t → t ≤ maxTimeoutMilliseconds → isInt8 f →
      (run (forcedExitSchedule t f sig Process.init) Process.init).trace.get? 4 =
        some (Event.slept 0 (t * 1000000))) := by
  have hcfg := run_configured as
  refine ⟨?_, ?_, ?_⟩
  · intro n i d hn
    obtain ⟨t0, f0, h1, h2, h3⟩ := hcfg.good n _ hn
    refine ⟨t0, f0, h1, h2, h3, ?_, ?_⟩
    · intro h0 h64
      rw [h2]
      exact wrap_millis_eq_iff t0 h0 h64
    · intro hmax
      rw [h2]
      exact wrap_millis_lt t0 hmax
  · intro n i c hn
    obtain ⟨t0, f0, _, _, h3⟩ := hcfg.good n _ hn
    exact h3
  · intro h0 hmax hf
    have h64 : isInt64 t := by
      unfold maxTimeoutMilliseconds at hmax
      unfold isInt64
      omega
    have h := (forcedExitSchedule_run t f sig Process.init rfl (le_refl _) hf).2.1
    rw [h, (wrap_millis_eq_iff t h0 h64).mpr hmax]
    simp [Process.init, State.init]

/-- A timeout of 500 ms: the listener sleeps 500000000 ns, after it has set the
flag. -/
theorem sleep_duration_of_run_witness :
    (∃ t0 f0 : Int,
      lastEnabled ((run (forcedExitSchedule 500 1 Signal.SIGINT Process.init)
        Process.init).trace.take 4) = some (t0, f0) ∧
      (500000000 : Int) = wrapInt64 (Duration t0 * Millisecond) ∧
      ((run (forcedExitSchedule 500 1 Signal.SIGINT Process.init)
        Process.init).trace.take 4).any (Event.isFlagSet 0) = true ∧
      (0 ≤ t0 → isInt64 t0 →
        ((500000000 : Int) = t0 * 1000000 ↔ t0 ≤ maxTimeoutMilliseconds)) ∧
      (maxTimeoutMilliseconds < t0 → (500000000 : Int) < t0 * 1000000)) ∧
    (run (forcedExitSchedule 500 1 Signal.SIGINT Process.init) Process.init).trace.get? 4 =
      some (Event.slept 0 (500 * 1000000)) :=
  ⟨(sleep_duration_of_run (forcedExitSchedule 500 1 Signal.SIGINT Process.init)
      500 1 Signal.SIGINT).1 4 0 500000000 (by decide),
    (sleep_duration_of_run [] 500 1 Signal.SIGINT).2.2 (by decide) (by decide)
      (by decide)⟩

end Termination
